import Mathlib

/-!
Verification of the QUIC transport core (huifeng-kooboo/quic, an mvfst-derived
code base) against its natural-language specification.

The relevant C++ state and operations are shallowly embedded as executable Lean
definitions.  Machine integers (`uint64_t`, `size_t`) are modelled as `Nat`;
all arithmetic in the embedded routines stays far below `2^64` in every claim,
and saturating/truncating helpers (`splitAtMost`, `trimStartAtMost`) are
modelled with `min`/truncated subtraction exactly as the C++ computes them.
Byte chains (`ChainedByteRangeHead`, `BufQueue`) are modelled by their lengths:
every embedded routine consumes them only through `chainLength`, `append`,
`splitAtMost`, `trimStartAtMost` and `empty`, all of which are functions of the
length alone.  Fallible code (`throw QuicTransportException`) is modelled with
`Except`.
-/

namespace Quic

/-- Transport error codes of RFC 9000 used by the embedded routines
(`quic/QuicException.h` is not part of the sources; the spec's §7 lists the
codes). -/
inductive TransportErrorCode
  | FRAME_ENCODING_ERROR
  | INTERNAL_ERROR
  | CRYPTO_ERROR
  | PROTOCOL_VIOLATION
deriving DecidableEq, Repr

/-! ## ACK frame decoding (spec §4.1)

`decodeAckFrame` lives in `quic/codec/Decode.cpp`, which is not under `src/`;
only its test (`DecodeTest`, `src/unnamed/part_000`) is.  The decoder is
therefore modelled from the spec. -/

/-- One acked range of packet numbers, closed on both ends
(`AckBlock {startPacket, endPacket}` of the codec types). -/
structure AckBlock where
  startPacket : Nat
  endPacket : Nat
deriving DecidableEq, Repr

/-- Decoded ACK frame: the ack delay in microseconds and the acked ranges in
order from largest to smallest. -/
structure ReadAckFrame where
  largestAcked : Nat
  ackDelayMicroseconds : Nat
  ackBlocks : List AckBlock
deriving DecidableEq, Repr

/-- Modelled from the spec: the additional-block loop of `decodeAckFrame`
(`quic/codec/Decode.cpp`, not under `src/`).  Spec §4.1: "For each subsequent
pair `(gap, blockLen)`: the next block ends at `prevStart − gap − 2` and has
length `blockLen`.  Underflow of the end (`< 0`) or of the start is a protocol
error."  `prevStart` is the start of the previously decoded block. -/
def decodeAckBlocks (prevStart : Nat) : List (Nat × Nat) → Except TransportErrorCode (List AckBlock)
  | [] => .ok []
  | (gap, blockLen) :: rest =>
    if prevStart < gap + 2 then
      .error .FRAME_ENCODING_ERROR
    else
      let currentEnd := prevStart - gap - 2
      if currentEnd < blockLen then
        .error .FRAME_ENCODING_ERROR
      else
        let currentStart := currentEnd - blockLen
        match decodeAckBlocks currentStart rest with
        | .ok blocks => .ok (⟨currentStart, currentEnd⟩ :: blocks)
        | .error e => .error e

/-- Modelled from the spec: `decodeAckFrame` (`quic/codec/Decode.cpp`, not
under `src/`).  Spec §4.1: the first block covers
`[largestAcked − firstAckBlockLength, largestAcked]` and
`firstAckBlockLength > largestAcked` is a protocol error; `ackDelay` is
multiplied by `2^ackDelayExponent` microseconds, values overflowing `u64`
microseconds are a protocol error; `numAdditionalBlocks` further `(gap,
blockLen)` pairs follow (a missing pair is a truncation error). -/
def decodeAckFrame (largestAcked ackDelay numAdditionalBlocks firstAckBlockLength : Nat)
    (blocks : List (Nat × Nat)) (ackDelayExponent : Nat) :
    Except TransportErrorCode ReadAckFrame :=
  if largestAcked < firstAckBlockLength then
    .error .FRAME_ENCODING_ERROR
  else if blocks.length < numAdditionalBlocks then
    .error .FRAME_ENCODING_ERROR
  else if 2 ^ 64 ≤ ackDelay * 2 ^ ackDelayExponent then
    .error .FRAME_ENCODING_ERROR
  else
    let firstStart := largestAcked - firstAckBlockLength
    match decodeAckBlocks firstStart (blocks.take numAdditionalBlocks) with
    | .ok rest =>
        .ok ⟨largestAcked, ackDelay * 2 ^ ackDelayExponent,
             ⟨firstStart, largestAcked⟩ :: rest⟩
    | .error e => .error e

/-- C1: Decoding an ACK frame with largestAcked = 1000, ackDelay = 100
(ack-delay exponent 3, hence 800 microseconds), numAdditionalBlocks = 3,
firstAckBlockLength = 10 and subsequent (gap, blockLen) pairs (10,10), (10,0),
(0,10) succeeds and yields exactly the acked ranges [990,1000], [968,978],
[956,956], [944,954] in that order: each subsequent block ends at
`prevStart - gap - 2`, and the zero-length block yields the single-packet
range [956,956]. -/
theorem ackFrameBlockLengthZero_decodes :
    decodeAckFrame 1000 100 3 10 [(10, 10), (10, 0), (0, 10)] 3 =
      .ok ⟨1000, 800, [⟨990, 1000⟩, ⟨968, 978⟩, ⟨956, 956⟩, ⟨944, 954⟩]⟩ := by
  rfl

/-! ## Acked intervals of a stream (`QuicStreamLike::updateAckedIntervals`,
`src/quic/state/StreamData.h:197`) -/

/-- Canonically merging insert of the closed interval `[s, e]` into a sorted
interval set, coalescing overlapping and adjacent (distance-1) intervals; this
models `IntervalSet<uint64_t, 1, ...>::insert` (spec §3: "a sorted, coalescing
set of `[start, end]` intervals ... disjoint, non-adjacent, and canonically
merged on insert"). -/
def intervalInsert (s e : Nat) : List (Nat × Nat) → List (Nat × Nat)
  | [] => [(s, e)]
  | (a, b) :: rest =>
    if e + 1 < a then (s, e) :: (a, b) :: rest
    else if b + 1 < s then (a, b) :: intervalInsert s e rest
    else intervalInsert (min s a) (max e b) rest

/-- `QuicStreamLike::updateAckedIntervals(offset, len, eof)`
(`src/quic/state/StreamData.h:197-211`).  `lenAdjustment` is 0 when `eof` and
1 otherwise; `LOG(FATAL)` (modelled as `none`) fires when the adjustment is
nonzero and `len == 0`; otherwise the closed interval
`[offset, offset + len - lenAdjustment]` is inserted. -/
def updateAckedIntervals (ackedIntervals : List (Nat × Nat)) (offset len : Nat) (eof : Bool) :
    Option (List (Nat × Nat)) :=
  let lenAdjustment : Nat := if eof then 0 else 1
  if lenAdjustment ≠ 0 ∧ len = 0 then
    none
  else
    some (intervalInsert offset (offset + len - lenAdjustment) ackedIntervals)

/-- C2: For every call to `updateAckedIntervals(offset, len, eof)`: with
`eof = true` the closed interval `[offset, offset + len]` is inserted into
`ackedIntervals` (one logical byte past the last data byte counts as acked);
with `eof = false` the closed interval `[offset, offset + len - 1]` is
inserted; `len = 0` with `eof = false` is a fatal error. -/
theorem updateAckedIntervals_spec (ackedIntervals : List (Nat × Nat)) (offset len : Nat) (eof : Bool) :
    (eof = true →
      updateAckedIntervals ackedIntervals offset len eof =
        some (intervalInsert offset (offset + len) ackedIntervals)) ∧
    (eof = false → 0 < len →
      updateAckedIntervals ackedIntervals offset len eof =
        some (intervalInsert offset (offset + len - 1) ackedIntervals)) ∧
    (eof = false → len = 0 →
      updateAckedIntervals ackedIntervals offset len eof = none) := by
  refine ⟨fun he => ?_, fun he hl => ?_, fun he hl => ?_⟩ <;>
    subst he <;> simp [updateAckedIntervals] <;> omega

/-- Witness for C2 at concrete inputs: an EOF ack of `[5, 5+3]`, a plain ack
of `[5, 5+3-1]`, and the fatal empty non-FIN ack. -/
theorem updateAckedIntervals_spec_witness :
    updateAckedIntervals [] 5 3 true = some (intervalInsert 5 8 []) ∧
    updateAckedIntervals [] 5 3 false = some (intervalInsert 5 7 []) ∧
    updateAckedIntervals [] 5 0 false = none := by
  refine ⟨(updateAckedIntervals_spec [] 5 3 true).1 rfl, ?_, ?_⟩
  · exact (updateAckedIntervals_spec [] 5 3 false).2.1 rfl (by decide)
  · exact (updateAckedIntervals_spec [] 5 0 false).2.2 rfl rfl

/-! ## RESET_STREAM / RESET_STREAM_AT decoding (spec §4.1)

`decodeRstStreamFrame` lives in `quic/codec/Decode.cpp`, which is not under
`src/`; only its tests (`DecodeTest.RstStreamAtFrame*`,
`src/unnamed/part_000:977-1000`) are.  Modelled from the spec. -/

/-- A decoded RESET_STREAM(_AT) frame (`RstStreamFrame` of the codec types):
`reliableSize` is present exactly for RESET_STREAM_AT. -/
structure RstStreamFrame where
  streamId : Nat
  errorCode : Nat
  finalSize : Nat
  reliableSize : Option Nat
deriving DecidableEq, Repr

/-- Modelled from the spec: `decodeRstStreamFrame` (`quic/codec/Decode.cpp`,
not under `src/`).  Spec §4.1: "RESET_STREAM_AT: extends RESET_STREAM with a
`reliableSize`; `reliableSize > finalSize` is a protocol error."  The four
wire fields have already been read as varints; `reliableSize` is read only for
the RESET_STREAM_AT frame type. -/
def decodeRstStreamFrame (streamId errorCode finalSize : Nat) (reliableSize : Option Nat) :
    Except TransportErrorCode RstStreamFrame :=
  match reliableSize with
  | none => .ok ⟨streamId, errorCode, finalSize, none⟩
  | some rs =>
    if finalSize < rs then
      .error .FRAME_ENCODING_ERROR
    else
      .ok ⟨streamId, errorCode, finalSize, some rs⟩

/-- C6: Parsing a RESET_STREAM_AT frame whose reliableSize exceeds its
finalSize (streamId = 0, errorCode = 0, finalSize = 10, reliableSize = 11)
fails with a frame-encoding protocol error, while a RESET_STREAM_AT frame with
reliableSize ≤ finalSize decodes to a reset-stream frame carrying exactly the
encoded streamId, errorCode, finalSize and reliableSize. -/
theorem rstStreamAt_decode_spec :
    decodeRstStreamFrame 0 0 10 (some 11) = .error .FRAME_ENCODING_ERROR ∧
    ∀ streamId errorCode finalSize rs : Nat, rs ≤ finalSize →
      decodeRstStreamFrame streamId errorCode finalSize (some rs) =
        .ok ⟨streamId, errorCode, finalSize, some rs⟩ := by
  refine ⟨rfl, fun streamId errorCode finalSize rs h => ?_⟩
  simp [decodeRstStreamFrame]
  omega

/-- Witness for C6 at the concrete input of `DecodeTest.RstStreamAtFrame`:
streamId = 0, errorCode = 0, finalSize = 10, reliableSize = 9. -/
theorem rstStreamAt_decode_spec_witness :
    decodeRstStreamFrame 0 0 10 (some 9) = .ok ⟨0, 0, 10, some 9⟩ :=
  rstStreamAt_decode_spec.2 0 0 10 9 (by decide)

/-! ## Connection state (`QuicConnectionStateBase`) and
`updateConnection` (`src/quic/api/QuicTransportFunctions.cpp:632-965`)

The embedded connection state carries the fields that the verified routines
read or write.  Per-stream side effects of `updateConnection`'s frame loop
(`handleStreamWritten` and the flow-control helpers) are verified separately
on the stream state below; the frame loop's effect on the connection itself is
the computation of `retransmittable`/`isPing` from the frame types, which is
embedded faithfully. -/

/-- `ProtectionType` (spec §3). -/
inductive ProtectionType
  | Initial
  | Handshake
  | ZeroRtt
  | KeyPhaseZero
  | KeyPhaseOne
deriving DecidableEq, Repr

/-- `EncryptionLevel`. -/
inductive EncryptionLevel
  | Initial
  | Handshake
  | EarlyData
  | AppData
deriving DecidableEq, Repr

/-- `protectionTypeToEncryptionLevel`. -/
def protectionTypeToEncryptionLevel : ProtectionType → EncryptionLevel
  | .Initial => .Initial
  | .Handshake => .Handshake
  | .ZeroRtt => .EarlyData
  | .KeyPhaseZero => .AppData
  | .KeyPhaseOne => .AppData

/-- `PacketNumberSpace` (spec §3). -/
inductive PacketNumberSpace
  | Initial
  | Handshake
  | AppData
deriving DecidableEq, Repr

/-- `PacketHeader::getPacketNumberSpace()`: the space a header's protection
type belongs to. -/
def protectionTypeToPacketNumberSpace : ProtectionType → PacketNumberSpace
  | .Initial => .Initial
  | .Handshake => .Handshake
  | .ZeroRtt => .AppData
  | .KeyPhaseZero => .AppData
  | .KeyPhaseOne => .AppData

/-- The header data `updateConnection` and the key-update routines consume:
`getProtectionType()` and `getPacketSequenceNum()`. -/
structure PacketHeader where
  protectionType : ProtectionType
  packetSequenceNum : Nat
deriving DecidableEq, Repr

/-- `PacketHeader.getPacketNumberSpace()`. -/
def PacketHeader.packetNumberSpace (h : PacketHeader) : PacketNumberSpace :=
  protectionTypeToPacketNumberSpace h.protectionType

/-- The frame types dispatched by `updateConnection`'s loop
(`QuicWriteFrame::Type`), payloads elided: the loop's effect on the connection
state verified here depends only on the type tag. -/
inductive QuicWriteFrame
  | writeStreamFrame
  | writeCryptoFrame
  | writeAckFrame
  | rstStreamFrame
  | maxDataFrame
  | dataBlockedFrame
  | maxStreamDataFrame
  | streamDataBlockedFrame
  | pingFrame
  | quicSimpleFrame
  | paddingFrame
  | datagramFrame
  | immediateAckFrame
deriving DecidableEq, Repr

/-- Whether a frame type sets `retransmittable = true` in `updateConnection`'s
switch (`QuicTransportFunctions.cpp:662-837`): ACK, PADDING and DATAGRAM
frames do not, every other case does. -/
def frameRetransmittable : QuicWriteFrame → Bool
  | .writeAckFrame => false
  | .paddingFrame => false
  | .datagramFrame => false
  | _ => true

/-- `retransmittable` after `updateConnection`'s frame loop. -/
def packetRetransmittable (frames : List QuicWriteFrame) : Bool :=
  frames.any frameRetransmittable

/-- `isPing` after `updateConnection`'s frame loop. -/
def packetIsPing (frames : List QuicWriteFrame) : Bool :=
  frames.any (· == .pingFrame)

/-- `RegularQuicWritePacket`: header plus frames. -/
structure RegularQuicPacket where
  header : PacketHeader
  frames : List QuicWriteFrame
deriving DecidableEq, Repr

/-- `OutstandingPacketWrapper`: the entry of `outstandings.packets`; of its
metadata only the packet itself is consumed by the verified routines. -/
structure OutstandingPacketWrapper where
  packet : RegularQuicPacket
deriving DecidableEq, Repr

/-- The per-space next packet numbers held in `conn.ackStates`
(`AckState::nextPacketNum`). -/
structure AckStates where
  initialNextPacketNum : Nat
  handshakeNextPacketNum : Nat
  appDataNextPacketNum : Nat
deriving DecidableEq, Repr

/-- `getAckState(conn, pnSpace).nextPacketNum`. -/
def AckStates.nextPacketNum (a : AckStates) : PacketNumberSpace → Nat
  | .Initial => a.initialNextPacketNum
  | .Handshake => a.handshakeNextPacketNum
  | .AppData => a.appDataNextPacketNum

/-- Modelled from the spec: `increaseNextPacketNum`
(`quic/state/QuicStateFunctions.h`, not under `src/`; called at
`QuicTransportFunctions.cpp:844`).  Spec §3: "PacketNumber: 62-bit unsigned,
monotonically increasing within a PacketNumberSpace" — the next packet number
of the given space is incremented by one. -/
def increaseNextPacketNum (a : AckStates) : PacketNumberSpace → AckStates
  | .Initial => { a with initialNextPacketNum := a.initialNextPacketNum + 1 }
  | .Handshake => { a with handshakeNextPacketNum := a.handshakeNextPacketNum + 1 }
  | .AppData => { a with appDataNextPacketNum := a.appDataNextPacketNum + 1 }

/-- The fields of `conn.lossState` written by the verified routines. -/
structure LossState where
  largestSent : Option Nat
  totalBytesSent : Nat
  totalBodyBytesSent : Nat
  totalPacketsSent : Nat
  totalAckElicitingPacketsSent : Nat
  totalBytesRetransmitted : Nat
  totalStreamBytesCloned : Nat
deriving DecidableEq, Repr

/-- The transport settings consumed by the verified routines. -/
structure TransportSettings where
  initiateKeyUpdate : Bool
  firstKeyUpdatePacketCount : Option Nat
  keyUpdatePacketCountInterval : Nat
deriving DecidableEq, Repr

/-- `QuicConnectionStateBase`, restricted to the fields the verified routines
read or write.  `currentOneRttReadPhase` and `canInitiateKeyUpdate` stand for
`conn.readCodec->getCurrentOneRttReadPhase()` and
`conn.readCodec->canInitiateKeyUpdate()`; `congestionControllerWritableBytes`
is `conn.congestionController->getWritableBytes()` when a controller is set;
`throttlingBytesToSend` is the throttling signal's `maybeBytesToSend` when a
provider reports one. -/
structure QuicConnectionStateBase where
  oneRttWritePhase : ProtectionType
  currentOneRttReadPhase : ProtectionType
  canInitiateKeyUpdate : Bool
  oneRttWritePendingVerification : Bool
  oneRttWritePendingVerificationPacketNumber : Option Nat
  oneRttWritePacketsSentInCurrentPhase : Nat
  transportSettings : TransportSettings
  ackStates : AckStates
  lossState : LossState
  outstandingPackets : List OutstandingPacketWrapper
  pendingEventsSetLossDetectionAlarm : Bool
  writableBytesLimit : Option Nat
  udpSendPacketLen : Nat
  pendingEventsPathChallenge : Bool
  outstandingPathValidation : Bool
  pathValidationCredit : Nat
  congestionControllerWritableBytes : Option Nat
  throttlingBytesToSend : Option Nat
  isClientAddrVerified : Bool
deriving DecidableEq, Repr

/-- The insertion of a new outstanding packet
(`QuicTransportFunctions.cpp:880-912`): scan `outstandings.packets` from the
back for the first recorded packet whose sequence number is below the new
packet's and emplace the new packet right after it.  This helper performs that
reverse scan on the reversed list. -/
def insertOutstandingRev (pkt : OutstandingPacketWrapper) :
    List OutstandingPacketWrapper → List OutstandingPacketWrapper
  | [] => [pkt]
  | x :: xs =>
    if x.packet.header.packetSequenceNum < pkt.packet.header.packetSequenceNum then
      pkt :: x :: xs
    else
      x :: insertOutstandingRev pkt xs

/-- `conn.outstandings.packets.emplace(packetIt, ...)` with `packetIt` the
base of the reverse `find_if` (`QuicTransportFunctions.cpp:880-897`). -/
def insertOutstanding (packets : List OutstandingPacketWrapper)
    (pkt : OutstandingPacketWrapper) : List OutstandingPacketWrapper :=
  (insertOutstandingRev pkt packets.reverse).reverse

/-- `updateConnection` (`QuicTransportFunctions.cpp:632-965`), restricted to
its effect on the connection state: the frame loop computes `retransmittable`
and `isPing`; the next packet number of the packet's space is incremented;
`largestSent` and the byte/packet counters grow; sending in the current 1-RTT
write phase tracks the pending key-update verification packet number; a packet
that is neither retransmittable nor a ping is not recorded; otherwise it is
inserted into `outstandings.packets` ordered by packet sequence number. -/
def updateConnection (conn : QuicConnectionStateBase) (packet : RegularQuicPacket)
    (encodedSize encodedBodySize : Nat) : QuicConnectionStateBase :=
  let packetNum := packet.header.packetSequenceNum
  let packetNumberSpace := packet.header.packetNumberSpace
  let retransmittable := packetRetransmittable packet.frames
  let isPing := packetIsPing packet.frames
  let conn :=
    { conn with
      ackStates := increaseNextPacketNum conn.ackStates packetNumberSpace
      lossState :=
        { conn.lossState with
          largestSent := some (max (conn.lossState.largestSent.getD packetNum) packetNum)
          totalBytesSent := conn.lossState.totalBytesSent + encodedSize
          totalBodyBytesSent := conn.lossState.totalBodyBytesSent + encodedBodySize
          totalPacketsSent := conn.lossState.totalPacketsSent + 1 }
      pendingEventsSetLossDetectionAlarm :=
        conn.pendingEventsSetLossDetectionAlarm || retransmittable }
  let conn :=
    if packet.header.protectionType = conn.oneRttWritePhase then
      { conn with
        oneRttWritePendingVerificationPacketNumber :=
          if conn.oneRttWritePendingVerification ∧
              conn.oneRttWritePacketsSentInCurrentPhase = 0 then
            some packetNum
          else
            conn.oneRttWritePendingVerificationPacketNumber
        oneRttWritePacketsSentInCurrentPhase :=
          conn.oneRttWritePacketsSentInCurrentPhase + 1 }
    else
      conn
  if ¬retransmittable ∧ ¬isPing then
    conn
  else
    { conn with
      lossState :=
        { conn.lossState with
          totalAckElicitingPacketsSent := conn.lossState.totalAckElicitingPacketsSent + 1 }
      outstandingPackets := insertOutstanding conn.outstandingPackets ⟨packet⟩ }

/-! ## 1-RTT key update
(`maybeInitiateKeyUpdate`, `maybeVerifyPendingKeyUpdate`,
`src/quic/api/QuicTransportFunctions.cpp:2037-2089`, and the sent-packet phase
tracking in `updateConnection`, lines 860-872) -/

/-- The flip of the 1-RTT key phase performed by
`readCodec->advanceOneRttReadPhase()`. -/
def nextKeyPhase : ProtectionType → ProtectionType
  | .KeyPhaseZero => .KeyPhaseOne
  | .KeyPhaseOne => .KeyPhaseZero
  | t => t

/-- `updateOneRttWriteCipher` (`QuicTransportFunctions.cpp:2010-2023`): the
write phase becomes the given phase and the packets-sent counter of the
current phase restarts at zero (the cipher itself is outside the model). -/
def updateOneRttWriteCipher (conn : QuicConnectionStateBase) (oneRttPhase : ProtectionType) :
    QuicConnectionStateBase :=
  { conn with
    oneRttWritePhase := oneRttPhase
    oneRttWritePacketsSentInCurrentPhase := 0 }

/-- `maybeInitiateKeyUpdate` (`QuicTransportFunctions.cpp:2037-2061`): when
key updates are enabled and more than `firstKeyUpdatePacketCount` (or, once
that is consumed, `keyUpdatePacketCountInterval`) packets were sent in the
current phase and the read codec can advance, the read phase advances, the
write cipher moves to the new phase, and verification of the update becomes
pending with no packet number recorded yet. -/
def maybeInitiateKeyUpdate (conn : QuicConnectionStateBase) : QuicConnectionStateBase :=
  if conn.transportSettings.initiateKeyUpdate then
    let packetsBeforeNextUpdate :=
      (conn.transportSettings.firstKeyUpdatePacketCount).getD
        conn.transportSettings.keyUpdatePacketCountInterval
    if packetsBeforeNextUpdate < conn.oneRttWritePacketsSentInCurrentPhase ∧
        conn.canInitiateKeyUpdate then
      let conn :=
        { conn with
          currentOneRttReadPhase := nextKeyPhase conn.currentOneRttReadPhase
          transportSettings :=
            { conn.transportSettings with firstKeyUpdatePacketCount := none } }
      let conn := updateOneRttWriteCipher conn conn.currentOneRttReadPhase
      { conn with
        oneRttWritePendingVerification := true
        oneRttWritePendingVerificationPacketNumber := none }
    else
      conn
  else
    conn

/-- `maybeVerifyPendingKeyUpdate` (`QuicTransportFunctions.cpp:2063-2089`):
for an acked outstanding AppData packet whose number reaches the
pending-verification packet number, an ack arriving in the current write phase
verifies the key update and clears the pending state, while an ack in any
other phase throws `CRYPTO_ERROR`. -/
def maybeVerifyPendingKeyUpdate (conn : QuicConnectionStateBase)
    (outstandingPacket : OutstandingPacketWrapper) (ackPacket : PacketHeader) :
    Except TransportErrorCode QuicConnectionStateBase :=
  if ¬(protectionTypeToEncryptionLevel outstandingPacket.packet.header.protectionType =
      .AppData) then
    .ok conn
  else
    match conn.oneRttWritePendingVerificationPacketNumber with
    | none => .ok conn
    | some pendingNum =>
      if pendingNum ≤ outstandingPacket.packet.header.packetSequenceNum then
        if ackPacket.protectionType = conn.oneRttWritePhase then
          .ok
            { conn with
              oneRttWritePendingVerificationPacketNumber := none
              oneRttWritePendingVerification := false }
        else
          .error .CRYPTO_ERROR
      else
        .ok conn

/-- C3: After a locally initiated 1-RTT key update
(`maybeInitiateKeyUpdate` leaves verification pending with a fresh phase and
no packet recorded), the first packet sent in the new write phase is recorded
as the pending-verification packet number; an outstanding AppData packet with
number at least the pending-verification number acked by a packet whose key
phase differs from the current write phase fails the connection with
`CRYPTO_ERROR`, and one acked in the current write phase clears the pending
verification. -/
theorem keyUpdate_verification_spec :
    (∀ conn : QuicConnectionStateBase,
      conn.transportSettings.initiateKeyUpdate = true →
      conn.canInitiateKeyUpdate = true →
      (conn.transportSettings.firstKeyUpdatePacketCount).getD
          conn.transportSettings.keyUpdatePacketCountInterval <
        conn.oneRttWritePacketsSentInCurrentPhase →
      (maybeInitiateKeyUpdate conn).oneRttWritePendingVerification = true ∧
      (maybeInitiateKeyUpdate conn).oneRttWritePendingVerificationPacketNumber = none ∧
      (maybeInitiateKeyUpdate conn).oneRttWritePacketsSentInCurrentPhase = 0 ∧
      (maybeInitiateKeyUpdate conn).oneRttWritePhase =
        nextKeyPhase conn.currentOneRttReadPhase) ∧
    (∀ (conn : QuicConnectionStateBase) (packet : RegularQuicPacket)
        (encodedSize encodedBodySize : Nat),
      conn.oneRttWritePendingVerification = true →
      conn.oneRttWritePacketsSentInCurrentPhase = 0 →
      packet.header.protectionType = conn.oneRttWritePhase →
      (updateConnection conn packet encodedSize
          encodedBodySize).oneRttWritePendingVerificationPacketNumber =
        some packet.header.packetSequenceNum) ∧
    (∀ (conn : QuicConnectionStateBase) (outstandingPacket : OutstandingPacketWrapper)
        (ackPacket : PacketHeader) (pendingNum : Nat),
      protectionTypeToEncryptionLevel outstandingPacket.packet.header.protectionType =
        .AppData →
      conn.oneRttWritePendingVerificationPacketNumber = some pendingNum →
      pendingNum ≤ outstandingPacket.packet.header.packetSequenceNum →
      (ackPacket.protectionType ≠ conn.oneRttWritePhase →
        maybeVerifyPendingKeyUpdate conn outstandingPacket ackPacket =
          .error .CRYPTO_ERROR) ∧
      (ackPacket.protectionType = conn.oneRttWritePhase →
        maybeVerifyPendingKeyUpdate conn outstandingPacket ackPacket =
          .ok
            { conn with
              oneRttWritePendingVerificationPacketNumber := none
              oneRttWritePendingVerification := false })) := by
  refine ⟨fun conn h1 h2 h3 => ?_, fun conn packet es ebs h1 h2 h3 => ?_,
    fun conn op ack pendingNum h1 h2 h3 => ⟨fun hne => ?_, fun heq => ?_⟩⟩
  · simp only [maybeInitiateKeyUpdate, h1, if_true]
    rw [if_pos ⟨h3, h2⟩]
    simp [updateOneRttWriteCipher]
  · simp only [updateConnection, h3, if_true, h1, h2]
    simp only [eq_self_iff_true, if_true, true_and]
    split <;> rfl
  · simp [maybeVerifyPendingKeyUpdate, h1, h2, h3, hne]
  · simp [maybeVerifyPendingKeyUpdate, h1, h2, h3, heq]

/-- A concrete quiescent connection state used by the witnesses. -/
def sampleConn : QuicConnectionStateBase where
  oneRttWritePhase := .KeyPhaseZero
  currentOneRttReadPhase := .KeyPhaseZero
  canInitiateKeyUpdate := false
  oneRttWritePendingVerification := false
  oneRttWritePendingVerificationPacketNumber := none
  oneRttWritePacketsSentInCurrentPhase := 0
  transportSettings := ⟨false, none, 8⟩
  ackStates := ⟨0, 0, 0⟩
  lossState := ⟨none, 0, 0, 0, 0, 0, 0⟩
  outstandingPackets := []
  pendingEventsSetLossDetectionAlarm := false
  writableBytesLimit := none
  udpSendPacketLen := 1000
  pendingEventsPathChallenge := false
  outstandingPathValidation := false
  pathValidationCredit := 0
  congestionControllerWritableBytes := none
  throttlingBytesToSend := none
  isClientAddrVerified := false

/-- Witness for C3 at concrete inputs: a connection past the key-update packet
threshold initiates an update; the first packet (number 42) sent in the new
phase is recorded; outstanding packet 50 ≥ 42 acked in the wrong phase errors
with `CRYPTO_ERROR` and acked in the current phase clears the pending state. -/
theorem keyUpdate_verification_spec_witness :
    ((maybeInitiateKeyUpdate
        { sampleConn with
          transportSettings := ⟨true, none, 5⟩
          canInitiateKeyUpdate := true
          oneRttWritePacketsSentInCurrentPhase := 6 }).oneRttWritePendingVerification =
        true ∧
      (maybeInitiateKeyUpdate
        { sampleConn with
          transportSettings := ⟨true, none, 5⟩
          canInitiateKeyUpdate := true
          oneRttWritePacketsSentInCurrentPhase := 6 }).oneRttWritePendingVerificationPacketNumber =
        none ∧
      (maybeInitiateKeyUpdate
        { sampleConn with
          transportSettings := ⟨true, none, 5⟩
          canInitiateKeyUpdate := true
          oneRttWritePacketsSentInCurrentPhase := 6 }).oneRttWritePacketsSentInCurrentPhase =
        0 ∧
      (maybeInitiateKeyUpdate
        { sampleConn with
          transportSettings := ⟨true, none, 5⟩
          canInitiateKeyUpdate := true
          oneRttWritePacketsSentInCurrentPhase := 6 }).oneRttWritePhase =
        nextKeyPhase .KeyPhaseZero) ∧
    (updateConnection
        { sampleConn with
          oneRttWritePendingVerification := true
          oneRttWritePhase := .KeyPhaseOne }
        ⟨⟨.KeyPhaseOne, 42⟩, [.pingFrame]⟩ 100
        80).oneRttWritePendingVerificationPacketNumber =
      some 42 ∧
    (maybeVerifyPendingKeyUpdate
        { sampleConn with
          oneRttWritePendingVerification := true
          oneRttWritePendingVerificationPacketNumber := some 42
          oneRttWritePhase := .KeyPhaseOne }
        ⟨⟨⟨.KeyPhaseOne, 50⟩, [.pingFrame]⟩⟩ ⟨.KeyPhaseZero, 90⟩ =
      .error .CRYPTO_ERROR) ∧
    (maybeVerifyPendingKeyUpdate
        { sampleConn with
          oneRttWritePendingVerification := true
          oneRttWritePendingVerificationPacketNumber := some 42
          oneRttWritePhase := .KeyPhaseOne }
        ⟨⟨⟨.KeyPhaseOne, 50⟩, [.pingFrame]⟩⟩ ⟨.KeyPhaseOne, 90⟩ =
      .ok
        { sampleConn with
          oneRttWritePendingVerification := false
          oneRttWritePendingVerificationPacketNumber := none
          oneRttWritePhase := .KeyPhaseOne }) := by
  refine ⟨keyUpdate_verification_spec.1 _ rfl rfl (by decide), ?_, ?_, ?_⟩
  · exact keyUpdate_verification_spec.2.1 _ ⟨⟨.KeyPhaseOne, 42⟩, [.pingFrame]⟩ 100 80
      rfl rfl rfl
  · exact (keyUpdate_verification_spec.2.2 _ ⟨⟨⟨.KeyPhaseOne, 50⟩, [.pingFrame]⟩⟩
      ⟨.KeyPhaseZero, 90⟩ 42 rfl rfl (by decide)).1 (by decide)
  · exact (keyUpdate_verification_spec.2.2 _ ⟨⟨⟨.KeyPhaseOne, 50⟩, [.pingFrame]⟩⟩
      ⟨.KeyPhaseOne, 90⟩ 42 rfl rfl (by decide)).2 rfl

/-! ## Amplification limit before address validation
(`maybeUnvalidatedClientWritableBytes`, `congestionControlWritableBytes`,
`src/quic/api/QuicTransportFunctions.cpp:100-117, 975-1019`, and
`QuicServerTransport::verifiedClientAddress`, `src/unnamed/part_002:754-759`)
-/

/-- `unlimitedWritableBytes` (`QuicTransportFunctions.cpp:1021-1023`):
`std::numeric_limits<uint64_t>::max()`. -/
def unlimitedWritableBytes (_ : QuicConnectionStateBase) : Nat :=
  2 ^ 64 - 1

/-- `maybeUnvalidatedClientWritableBytes`
(`QuicTransportFunctions.cpp:100-117`): without a `writableBytesLimit` the
budget is unlimited; once `totalBytesSent` reaches the limit the budget is 0;
otherwise the remainder rounded up to a multiple of `udpSendPacketLen`. -/
def maybeUnvalidatedClientWritableBytes (conn : QuicConnectionStateBase) : Nat :=
  match conn.writableBytesLimit with
  | none => unlimitedWritableBytes conn
  | some limit =>
    if limit ≤ conn.lossState.totalBytesSent then
      0
    else
      let writableBytes := limit - conn.lossState.totalBytesSent
      (writableBytes + conn.udpSendPacketLen - 1) / conn.udpSendPacketLen *
        conn.udpSendPacketLen

/-- `congestionControlWritableBytes` (`QuicTransportFunctions.cpp:975-1019`):
path-validation credit during a path challenge (where a concurrent
`writableBytesLimit` is a CHECK failure, hence the hypothesis in the theorem),
else the unvalidated-client budget when a limit is set; capped by the
congestion controller and by a throttling signal; a finite result is rounded
up to a multiple of `udpSendPacketLen`. -/
def congestionControlWritableBytes (conn : QuicConnectionStateBase) : Nat :=
  let writableBytes : Nat :=
    if conn.pendingEventsPathChallenge || conn.outstandingPathValidation then
      conn.pathValidationCredit
    else if conn.writableBytesLimit.isSome then
      maybeUnvalidatedClientWritableBytes conn
    else
      2 ^ 64 - 1
  let writableBytes :=
    match conn.congestionControllerWritableBytes with
    | none => writableBytes
    | some ccBytes =>
      let writableBytes := min writableBytes ccBytes
      match conn.throttlingBytesToSend with
      | none => writableBytes
      | some throttleBytes => min throttleBytes writableBytes
  if writableBytes = 2 ^ 64 - 1 then
    writableBytes
  else
    (writableBytes + conn.udpSendPacketLen - 1) / conn.udpSendPacketLen *
      conn.udpSendPacketLen

/-- `QuicServerTransport::verifiedClientAddress`
(`src/unnamed/part_002:754-759`): marks the client address verified and clears
`writableBytesLimit`. -/
def verifiedClientAddress (conn : QuicConnectionStateBase) : QuicConnectionStateBase :=
  { conn with
    isClientAddrVerified := true
    writableBytesLimit := none }

/-- C4: While `writableBytesLimit` is set (the pre-validation amplification
cap of 3× bytes received), whenever `totalBytesSent` has reached the limit
the writable-bytes budget for further packets is 0 — both directly and through
`congestionControlWritableBytes` — and once the client address is verified the
limit is removed entirely, restoring the unlimited budget. -/
theorem writableBytesLimit_spec :
    (∀ (conn : QuicConnectionStateBase) (limit : Nat),
      conn.writableBytesLimit = some limit →
      limit ≤ conn.lossState.totalBytesSent →
      maybeUnvalidatedClientWritableBytes conn = 0 ∧
      (conn.pendingEventsPathChallenge = false →
        conn.outstandingPathValidation = false →
        congestionControlWritableBytes conn = 0)) ∧
    (∀ conn : QuicConnectionStateBase,
      (verifiedClientAddress conn).writableBytesLimit = none ∧
      maybeUnvalidatedClientWritableBytes (verifiedClientAddress conn) =
        unlimitedWritableBytes conn) := by
  constructor
  · intro conn limit hlim hsent
    have hmu : maybeUnvalidatedClientWritableBytes conn = 0 := by
      simp [maybeUnvalidatedClientWritableBytes, hlim, hsent]
    refine ⟨hmu, fun hpc hopv => ?_⟩
    simp only [congestionControlWritableBytes, hpc, hopv, hlim, hmu,
      Bool.or_self, Bool.false_eq_true, if_false, Option.isSome_some, if_true]
    have hdiv : (conn.udpSendPacketLen - 1) / conn.udpSendPacketLen = 0 ∨
        conn.udpSendPacketLen = 0 := by
      rcases Nat.eq_zero_or_pos conn.udpSendPacketLen with h | h
      · exact Or.inr h
      · exact Or.inl (Nat.div_eq_of_lt (by omega))
    cases hcc : conn.congestionControllerWritableBytes with
    | none =>
      simp only [Nat.zero_min, Nat.min_zero, Nat.zero_add, Nat.mul_eq_zero,
        Nat.div_eq_zero_iff]
      simpa using hdiv
    | some ccBytes =>
      cases ht : conn.throttlingBytesToSend with
      | none => simpa [Nat.zero_min] using hdiv
      | some throttleBytes => simpa [Nat.zero_min, Nat.min_zero] using hdiv
  · intro conn
    exact ⟨rfl, rfl⟩

/-- Witness for C4 at a concrete connection: limit 300 already consumed by
`totalBytesSent = 300` gives budget 0, and verifying the address lifts the
limit. -/
theorem writableBytesLimit_spec_witness :
    (maybeUnvalidatedClientWritableBytes
        { sampleConn with
          writableBytesLimit := some 300
          lossState := ⟨none, 300, 0, 0, 0, 0, 0⟩ } = 0 ∧
      congestionControlWritableBytes
        { sampleConn with
          writableBytesLimit := some 300
          lossState := ⟨none, 300, 0, 0, 0, 0, 0⟩ } = 0) ∧
    (verifiedClientAddress
        { sampleConn with
          writableBytesLimit := some 300
          lossState := ⟨none, 300, 0, 0, 0, 0, 0⟩ }).writableBytesLimit = none := by
  have h := writableBytesLimit_spec.1
    { sampleConn with
      writableBytesLimit := some 300
      lossState := ⟨none, 300, 0, 0, 0, 0, 0⟩ } 300 rfl (by decide)
  exact ⟨⟨h.1, h.2 rfl rfl⟩,
    (writableBytesLimit_spec.2
      { sampleConn with
        writableBytesLimit := some 300
        lossState := ⟨none, 300, 0, 0, 0, 0, 0⟩ }).1⟩

/-! ## Ordering of `outstandings.packets` (C8) and the write loop body (C7) -/

/-- The scan predicate of the reverse `find_if`: the scanned entry's sequence
number is not below the new packet's. -/
def seqNotBelow (pkt q : OutstandingPacketWrapper) : Bool :=
  pkt.packet.header.packetSequenceNum ≤ q.packet.header.packetSequenceNum

theorem insertOutstandingRev_eq (pkt : OutstandingPacketWrapper)
    (r : List OutstandingPacketWrapper) :
    insertOutstandingRev pkt r =
      r.takeWhile (seqNotBelow pkt) ++ pkt :: r.dropWhile (seqNotBelow pkt) := by
  induction r with
  | nil => rfl
  | cons x xs ih =>
    by_cases h : x.packet.header.packetSequenceNum < pkt.packet.header.packetSequenceNum
    · have hb : seqNotBelow pkt x = false := by
        simp [seqNotBelow]
        omega
      simp [insertOutstandingRev, h, List.takeWhile_cons, List.dropWhile_cons, hb]
    · have hb : seqNotBelow pkt x = true := by
        simp [seqNotBelow]
        omega
      simp [insertOutstandingRev, h, List.takeWhile_cons, List.dropWhile_cons, hb, ih]

/-- The emplacement performed by `updateConnection` splits the outstanding
list into the packets recorded before the insertion point and a (nearest to
the back) run of packets with sequence numbers at least the new packet's. -/
theorem insertOutstanding_decomposition (packets : List OutstandingPacketWrapper)
    (pkt : OutstandingPacketWrapper) :
    ∃ before after,
      packets = before ++ after ∧
      insertOutstanding packets pkt = before ++ pkt :: after ∧
      ∀ q ∈ after,
        pkt.packet.header.packetSequenceNum ≤ q.packet.header.packetSequenceNum := by
  refine ⟨(packets.reverse.dropWhile (seqNotBelow pkt)).reverse,
    (packets.reverse.takeWhile (seqNotBelow pkt)).reverse, ?_, ?_, ?_⟩
  · rw [← List.reverse_append, List.takeWhile_append_dropWhile, List.reverse_reverse]
  · rw [insertOutstanding, insertOutstandingRev_eq, List.reverse_append,
      List.reverse_cons, List.append_assoc, List.singleton_append]
  · intro q hq
    rw [List.mem_reverse] at hq
    have := List.mem_takeWhile_imp hq
    simpa [seqNotBelow] using this

/-- The packet numbers recorded in a list of outstanding packets, restricted
to one packet-number space, in list order. -/
def packetsInSpace (s : PacketNumberSpace) (packets : List OutstandingPacketWrapper) :
    List Nat :=
  (packets.filter fun q => q.packet.header.packetNumberSpace = s).map
    fun q => q.packet.header.packetSequenceNum

/-- The per-space ordering invariant of `outstandings.packets`. -/
def outstandingsSortedPerSpace (packets : List OutstandingPacketWrapper) : Prop :=
  ∀ s, List.Pairwise (· < ·) (packetsInSpace s packets)

theorem packetsInSpace_append (s : PacketNumberSpace)
    (l₁ l₂ : List OutstandingPacketWrapper) :
    packetsInSpace s (l₁ ++ l₂) = packetsInSpace s l₁ ++ packetsInSpace s l₂ := by
  simp [packetsInSpace]

theorem mem_packetsInSpace (s : PacketNumberSpace) (packets : List OutstandingPacketWrapper)
    (n : Nat) :
    n ∈ packetsInSpace s packets ↔
      ∃ q ∈ packets, q.packet.header.packetNumberSpace = s ∧
        q.packet.header.packetSequenceNum = n := by
  simp only [packetsInSpace, List.mem_map, List.mem_filter, decide_eq_true_eq]
  constructor
  · rintro ⟨q, ⟨hq, hs⟩, hn⟩
    exact ⟨q, hq, hs, hn⟩
  · rintro ⟨q, hq, hs, hn⟩
    exact ⟨q, ⟨hq, hs⟩, hn⟩

/-- The effect of `updateConnection` on `outstandings.packets`: a packet that
is neither retransmittable nor a ping is not recorded; any other packet is
emplaced at the position found by the reverse scan. -/
theorem updateConnection_outstandingPackets (conn : QuicConnectionStateBase)
    (packet : RegularQuicPacket) (encodedSize encodedBodySize : Nat) :
    (updateConnection conn packet encodedSize encodedBodySize).outstandingPackets =
      if packetRetransmittable packet.frames || packetIsPing packet.frames then
        insertOutstanding conn.outstandingPackets ⟨packet⟩
      else
        conn.outstandingPackets := by
  rcases Bool.eq_false_or_eq_true (packetRetransmittable packet.frames) with hr | hr <;>
    rcases Bool.eq_false_or_eq_true (packetIsPing packet.frames) with hp | hp <;>
      simp only [updateConnection, hr, hp, Bool.false_eq_true, not_false_eq_true,
        not_true_eq_false, true_and, false_and, and_true, and_false, if_true, if_false,
        Bool.or_self, Bool.false_or, Bool.or_false, Bool.true_or, Bool.or_true] <;>
      split <;> rfl

/-- C8: After every `updateConnection` call that records a sent packet whose
number exceeds every previously recorded number of its space (packet numbers
within a space never repeat), the outstanding-packet list restricted to any
one packet-number space is ordered by strictly increasing packet number, and
the new ack-eliciting packet lands after every recorded packet of its space. -/
theorem updateConnection_outstandings_sorted (conn : QuicConnectionStateBase)
    (packet : RegularQuicPacket) (encodedSize encodedBodySize : Nat)
    (hsorted : outstandingsSortedPerSpace conn.outstandingPackets)
    (hfresh : ∀ q ∈ conn.outstandingPackets,
      q.packet.header.packetNumberSpace = packet.header.packetNumberSpace →
      q.packet.header.packetSequenceNum < packet.header.packetSequenceNum) :
    outstandingsSortedPerSpace
      (updateConnection conn packet encodedSize encodedBodySize).outstandingPackets ∧
    ((packetRetransmittable packet.frames || packetIsPing packet.frames) = true →
      packetsInSpace packet.header.packetNumberSpace
          (updateConnection conn packet encodedSize encodedBodySize).outstandingPackets =
        packetsInSpace packet.header.packetNumberSpace conn.outstandingPackets ++
          [packet.header.packetSequenceNum]) := by
  rw [updateConnection_outstandingPackets]
  by_cases hae : (packetRetransmittable packet.frames || packetIsPing packet.frames) = true
  · rw [if_pos hae]
    obtain ⟨before, after, hsplit, hins, hafter⟩ :=
      insertOutstanding_decomposition conn.outstandingPackets ⟨packet⟩
    have hafter_empty : ∀ s, s = packet.header.packetNumberSpace →
        packetsInSpace s after = [] := by
      intro s hs
      subst hs
      rw [List.eq_nil_iff_forall_not_mem]
      intro n hn
      rw [mem_packetsInSpace] at hn
      obtain ⟨q, hq, hqs, hqn⟩ := hn
      have hq' : q ∈ conn.outstandingPackets := by
        rw [hsplit]
        exact List.mem_append_right _ hq
      have h1 := hfresh q hq' hqs
      have h2 : packet.header.packetSequenceNum ≤ q.packet.header.packetSequenceNum :=
        hafter q hq
      omega
    have hbefore_lt : ∀ n ∈ packetsInSpace packet.header.packetNumberSpace before,
        n < packet.header.packetSequenceNum := by
      intro n hn
      rw [mem_packetsInSpace] at hn
      obtain ⟨q, hq, hqs, hqn⟩ := hn
      have hq' : q ∈ conn.outstandingPackets := by
        rw [hsplit]
        exact List.mem_append_left _ hq
      have := hfresh q hq' hqs
      omega
    have hsingle : ∀ s : PacketNumberSpace,
        packetsInSpace s [OutstandingPacketWrapper.mk packet] =
          if packet.header.packetNumberSpace = s then
            [packet.header.packetSequenceNum]
          else [] := by
      intro s
      by_cases hs : packet.header.packetNumberSpace = s <;>
        simp [packetsInSpace, hs]
    have hresult : ∀ s, packetsInSpace s (before ++ ⟨packet⟩ :: after) =
        packetsInSpace s before ++
          (if packet.header.packetNumberSpace = s then
            [packet.header.packetSequenceNum] else []) ++
          packetsInSpace s after := by
      intro s
      rw [show (before ++ OutstandingPacketWrapper.mk packet :: after) =
          before ++ [OutstandingPacketWrapper.mk packet] ++ after by simp,
        packetsInSpace_append, packetsInSpace_append, hsingle]
    constructor
    · intro s
      rw [hins, hresult]
      by_cases hs : packet.header.packetNumberSpace = s
      · rw [if_pos hs, hafter_empty s hs.symm, List.append_nil]
        have hold : packetsInSpace s conn.outstandingPackets = packetsInSpace s before := by
          rw [hsplit, packetsInSpace_append, hafter_empty s hs.symm, List.append_nil]
        rw [List.pairwise_append]
        refine ⟨?_, List.pairwise_singleton _ _, ?_⟩
        · have := hsorted s
          rwa [hold] at this
        · intro a ha b hb
          rw [List.mem_singleton] at hb
          subst hb
          exact hbefore_lt a (by rwa [← hs] at ha)
      · rw [if_neg hs, List.append_nil, ← packetsInSpace_append, ← hsplit]
        exact hsorted s
    · intro _
      rw [hins, hresult, if_pos rfl,
        hafter_empty packet.header.packetNumberSpace rfl, List.append_nil,
        hsplit, packetsInSpace_append,
        hafter_empty packet.header.packetNumberSpace rfl, List.append_nil]
  · rw [if_neg hae]
    exact ⟨hsorted, fun h => absurd h hae⟩

/-- Witness for C8 at a concrete connection: an outstanding AppData packet 7
and an Initial packet 9 already recorded, then AppData packet 8 (a ping) is
recorded between them in the flat list but after packet 7 in its own space. -/
theorem updateConnection_outstandings_sorted_witness :
    outstandingsSortedPerSpace
      (updateConnection
          { sampleConn with
            outstandingPackets :=
              [⟨⟨⟨.KeyPhaseZero, 7⟩, [.pingFrame]⟩⟩, ⟨⟨⟨.Initial, 9⟩, [.writeCryptoFrame]⟩⟩] }
          ⟨⟨.KeyPhaseZero, 8⟩, [.pingFrame]⟩ 100 80).outstandingPackets ∧
    packetsInSpace .AppData
        (updateConnection
          { sampleConn with
            outstandingPackets :=
              [⟨⟨⟨.KeyPhaseZero, 7⟩, [.pingFrame]⟩⟩, ⟨⟨⟨.Initial, 9⟩, [.writeCryptoFrame]⟩⟩] }
          ⟨⟨.KeyPhaseZero, 8⟩, [.pingFrame]⟩ 100 80).outstandingPackets =
      [7, 8] := by
  have h := updateConnection_outstandings_sorted
    { sampleConn with
      outstandingPackets :=
        [⟨⟨⟨.KeyPhaseZero, 7⟩, [.pingFrame]⟩⟩, ⟨⟨⟨.Initial, 9⟩, [.writeCryptoFrame]⟩⟩] }
    ⟨⟨.KeyPhaseZero, 8⟩, [.pingFrame]⟩ 100 80
    (by intro s; cases s <;> decide)
    (by decide)
  refine ⟨h.1, ?_⟩
  have h2 := h.2 (by decide)
  simpa using h2

/-- The result a dataplane function hands back to the write loop
(`DataPathResult`): whether the packet could be built, whether the batch
write/flush succeeded, and the built packet with its encoded sizes. -/
structure DataPathResult where
  buildSuccess : Bool
  writeSuccess : Bool
  packet : RegularQuicPacket
  encodedSize : Nat
  encodedBodySize : Nat
deriving DecidableEq, Repr

/-- One iteration of the loop of `writeConnectionDataToSocket`
(`src/quic/api/QuicTransportFunctions.cpp:1598-1676`): a failed build flushes
and returns; a built packet *always* runs `updateConnection` — "if it builds,
a lot of states need to be updated no matter the write result" — and only then
is a failed write/flush allowed to end the loop.  The boolean reports whether
the loop proceeds to another iteration. -/
def writeConnectionDataToSocketStep (connection : QuicConnectionStateBase)
    (ret : DataPathResult) : QuicConnectionStateBase × Bool :=
  if ret.buildSuccess = false then
    (connection, false)
  else
    let connection :=
      updateConnection connection ret.packet ret.encodedSize ret.encodedBodySize
    if ret.writeSuccess = false then
      (connection, false)
    else
      (connection, true)

theorem updateConnection_totalBytesSent (conn : QuicConnectionStateBase)
    (packet : RegularQuicPacket) (encodedSize encodedBodySize : Nat) :
    (updateConnection conn packet encodedSize
        encodedBodySize).lossState.totalBytesSent =
      conn.lossState.totalBytesSent + encodedSize := by
  simp only [updateConnection]
  split <;> split <;> rfl

theorem increaseNextPacketNum_self (a : AckStates) (s : PacketNumberSpace) :
    (increaseNextPacketNum a s).nextPacketNum s = a.nextPacketNum s + 1 := by
  cases s <;> rfl

theorem updateConnection_ackStates (conn : QuicConnectionStateBase)
    (packet : RegularQuicPacket) (encodedSize encodedBodySize : Nat) :
    (updateConnection conn packet encodedSize encodedBodySize).ackStates =
      increaseNextPacketNum conn.ackStates packet.header.packetNumberSpace := by
  simp only [updateConnection]
  split <;> split <;> rfl

/-- C7: In `writeConnectionDataToSocket`, when a packet is successfully built
but the subsequent socket write or batch flush fails, the connection state is
updated exactly as for a successfully written packet — the state after the
iteration equals `updateConnection` of the built packet whatever
`writeSuccess` is, so `totalBytesSent` has grown by the encoded size, the next
packet number of the packet's space has advanced, and an ack-eliciting packet
is recorded in `outstandings.packets`; nothing is rolled back on the write
failure. -/
theorem writeFailure_not_rolled_back (connection : QuicConnectionStateBase)
    (ret : DataPathResult) (hbuild : ret.buildSuccess = true) :
    (writeConnectionDataToSocketStep connection ret).1 =
      updateConnection connection ret.packet ret.encodedSize ret.encodedBodySize ∧
    (writeConnectionDataToSocketStep connection { ret with writeSuccess := false }).1 =
      (writeConnectionDataToSocketStep connection { ret with writeSuccess := true }).1 ∧
    (writeConnectionDataToSocketStep connection
          ret).1.lossState.totalBytesSent =
      connection.lossState.totalBytesSent + ret.encodedSize ∧
    (writeConnectionDataToSocketStep connection ret).1.ackStates.nextPacketNum
        ret.packet.header.packetNumberSpace =
      connection.ackStates.nextPacketNum ret.packet.header.packetNumberSpace + 1 ∧
    ((packetRetransmittable ret.packet.frames || packetIsPing ret.packet.frames) = true →
      OutstandingPacketWrapper.mk ret.packet ∈
        (writeConnectionDataToSocketStep connection ret).1.outstandingPackets) := by
  have hfst : (writeConnectionDataToSocketStep connection ret).1 =
      updateConnection connection ret.packet ret.encodedSize ret.encodedBodySize := by
    unfold writeConnectionDataToSocketStep
    rw [if_neg (by simp [hbuild])]
    split <;> rfl
  refine ⟨hfst, ?_, ?_, ?_, ?_⟩
  · simp [writeConnectionDataToSocketStep, hbuild]
  · rw [hfst, updateConnection_totalBytesSent]
  · rw [hfst, updateConnection_ackStates, increaseNextPacketNum_self]
  · intro hae
    rw [hfst, updateConnection_outstandingPackets, if_pos hae]
    obtain ⟨before, after, _, hins, _⟩ :=
      insertOutstanding_decomposition connection.outstandingPackets ⟨ret.packet⟩
    rw [hins]
    exact List.mem_append_right _ (List.mem_cons_self _ _)

/-- Witness for C7 at a concrete input: a built ping packet whose socket write
fails still updates the connection exactly as a written one. -/
theorem writeFailure_not_rolled_back_witness :
    (writeConnectionDataToSocketStep sampleConn
        ⟨true, false, ⟨⟨.KeyPhaseZero, 0⟩, [.pingFrame]⟩, 100, 80⟩).1 =
      updateConnection sampleConn ⟨⟨.KeyPhaseZero, 0⟩, [.pingFrame]⟩ 100 80 ∧
    (writeConnectionDataToSocketStep sampleConn
        ⟨true, false, ⟨⟨.KeyPhaseZero, 0⟩, [.pingFrame]⟩, 100, 80⟩).1.lossState.totalBytesSent =
      100 ∧
    OutstandingPacketWrapper.mk ⟨⟨.KeyPhaseZero, 0⟩, [.pingFrame]⟩ ∈
      (writeConnectionDataToSocketStep sampleConn
        ⟨true, false, ⟨⟨.KeyPhaseZero, 0⟩, [.pingFrame]⟩, 100, 80⟩).1.outstandingPackets := by
  have h := writeFailure_not_rolled_back sampleConn
    ⟨true, false, ⟨⟨.KeyPhaseZero, 0⟩, [.pingFrame]⟩, 100, 80⟩ rfl
  exact ⟨h.1, h.2.2.1, h.2.2.2.2 (by decide)⟩

/-! ## Loss buffers of a stream
(`QuicStreamLike::insertIntoLossBuffer` / `removeFromLossBuffer`,
`src/quic/state/StreamData.h:217-279`, and
`QuicStreamState::insertIntoLossBufMeta`, lines 644-660) -/

/-- `WriteStreamBuffer` (`src/quic/state/StreamData.h:97-117`); `data` models
the byte chain by its length `data.chainLength()` — the verified routines
consume the chain only through length-determined operations. -/
structure WriteStreamBuffer where
  data : Nat
  offset : Nat
  eof : Bool
deriving DecidableEq, Repr

/-- `WriteBufferMeta` (`src/quic/state/StreamData.h:38-83`). -/
structure WriteBufferMeta where
  length : Nat
  offset : Nat
  eof : Bool
deriving DecidableEq, Repr

/-- The prev-entry check of `insertIntoLossBuffer`
(`StreamData.h:225-232`): when the entry immediately before the insertion
point ends exactly at the new buffer's offset, the new buffer's data is
appended to it and its eof replaced; otherwise the new buffer is emplaced at
the insertion point. -/
def lossBufferMergeOrInsert (prev buf : WriteStreamBuffer) (rest : List WriteStreamBuffer) :
    List WriteStreamBuffer :=
  if prev.offset + prev.data = buf.offset then
    { prev with data := prev.data + buf.data, eof := buf.eof } :: rest
  else
    prev :: buf :: rest

/-- `QuicStreamLike::insertIntoLossBuffer` (`StreamData.h:217-233`):
`std::upper_bound` by offset followed by the prev-entry merge check, expressed
as a single left-to-right scan; on offset-partitioned buffers (the
precondition of `std::upper_bound`) the two formulations agree. -/
def insertIntoLossBuffer : List WriteStreamBuffer → WriteStreamBuffer → List WriteStreamBuffer
  | [], buf => [buf]
  | x :: xs, buf =>
    if buf.offset < x.offset then
      buf :: x :: xs
    else
      match xs with
      | [] => lossBufferMergeOrInsert x buf []
      | y :: ys =>
        if buf.offset < y.offset then
          lossBufferMergeOrInsert x buf (y :: ys)
        else
          x :: insertIntoLossBuffer (y :: ys) buf

/-- The prev-entry check of `insertIntoLossBufMeta` (`StreamData.h:652-659`). -/
def lossBufMetaMergeOrInsert (prev bufMeta : WriteBufferMeta) (rest : List WriteBufferMeta) :
    List WriteBufferMeta :=
  if prev.offset + prev.length = bufMeta.offset then
    { prev with length := prev.length + bufMeta.length, eof := bufMeta.eof } :: rest
  else
    prev :: bufMeta :: rest

/-- `QuicStreamState::insertIntoLossBufMeta` (`StreamData.h:644-660`), in the
same scan formulation as `insertIntoLossBuffer`. -/
def insertIntoLossBufMeta : List WriteBufferMeta → WriteBufferMeta → List WriteBufferMeta
  | [], bufMeta => [bufMeta]
  | x :: xs, bufMeta =>
    if bufMeta.offset < x.offset then
      bufMeta :: x :: xs
    else
      match xs with
      | [] => lossBufMetaMergeOrInsert x bufMeta []
      | y :: ys =>
        if bufMeta.offset < y.offset then
          lossBufMetaMergeOrInsert x bufMeta (y :: ys)
        else
          x :: insertIntoLossBufMeta (y :: ys) bufMeta

/-- No two consecutive entries of the loss buffer are contiguous in offset
space (the previous entry's end equals the next entry's offset). -/
def contiguousFree : List WriteStreamBuffer → Bool
  | [] => true
  | [_] => true
  | x :: y :: rest => (x.offset + x.data != y.offset) && contiguousFree (y :: rest)

/-- No two consecutive `lossBufMetas` entries are contiguous in offset
space. -/
def contiguousFreeMeta : List WriteBufferMeta → Bool
  | [] => true
  | [_] => true
  | x :: y :: rest => (x.offset + x.length != y.offset) && contiguousFreeMeta (y :: rest)

/-- Counterexample to C5: insert the lost segment `[10, 15)` and then the
pairwise non-overlapping lost segment `[0, 10)` (in that order).  The second
segment abuts the existing entry from the left, but the insert only merges
with the entry *preceding* the insertion point, so the buffer ends up with two
contiguous entries; likewise for `insertIntoLossBufMeta`. -/
theorem lossBuffer_contiguous_counterexample :
    insertIntoLossBuffer (insertIntoLossBuffer [] ⟨5, 10, false⟩) ⟨10, 0, false⟩ =
      [⟨10, 0, false⟩, ⟨5, 10, false⟩] ∧
    contiguousFree [⟨10, 0, false⟩, ⟨5, 10, false⟩] = false ∧
    insertIntoLossBufMeta (insertIntoLossBufMeta [] ⟨5, 10, false⟩) ⟨10, 0, false⟩ =
      [⟨10, 0, false⟩, ⟨5, 10, false⟩] ∧
    contiguousFreeMeta [⟨10, 0, false⟩, ⟨5, 10, false⟩] = false := by
  decide

/-- Sortedness by offset of a loss buffer. -/
def lossBufferSortedByOffset (l : List WriteStreamBuffer) : Prop :=
  List.Pairwise (fun a b => a.offset ≤ b.offset) l

/-- Sortedness by offset of `lossBufMetas`. -/
def lossBufMetasSortedByOffset (l : List WriteBufferMeta) : Prop :=
  List.Pairwise (fun a b => a.offset ≤ b.offset) l


theorem insertIntoLossBuffer_offset_forall (P : Nat → Prop) (l : List WriteStreamBuffer)
    (buf : WriteStreamBuffer) (hl : ∀ e ∈ l, P e.offset) (hbuf : P buf.offset) :
    ∀ e ∈ insertIntoLossBuffer l buf, P e.offset := by
  induction l with
  | nil =>
    intro e he
    rw [insertIntoLossBuffer, List.mem_singleton] at he
    exact he ▸ hbuf
  | cons x xs ih =>
    have hx := hl x (List.mem_cons_self x xs)
    have hxs : ∀ e ∈ xs, P e.offset := fun e he => hl e (List.mem_cons_of_mem x he)
    intro e he
    cases xs with
    | nil =>
      rw [insertIntoLossBuffer] at he
      by_cases h1 : buf.offset < x.offset
      · rw [if_pos h1] at he
        rcases List.mem_cons.mp he with rfl | h
        · exact hbuf
        · rcases List.mem_cons.mp h with rfl | h'
          · exact hx
          · simp at h'
      · rw [if_neg h1, lossBufferMergeOrInsert] at he
        split at he
        · rcases List.mem_cons.mp he with rfl | h
          · exact hx
          · simp at h
        · rcases List.mem_cons.mp he with rfl | h
          · exact hx
          · rcases List.mem_cons.mp h with rfl | h'
            · exact hbuf
            · simp at h'
    | cons y ys =>
      rw [insertIntoLossBuffer] at he
      by_cases h1 : buf.offset < x.offset
      · rw [if_pos h1] at he
        rcases List.mem_cons.mp he with rfl | h
        · exact hbuf
        · exact hl e h
      · rw [if_neg h1] at he
        by_cases h2 : buf.offset < y.offset
        · rw [if_pos h2, lossBufferMergeOrInsert] at he
          split at he
          · rcases List.mem_cons.mp he with rfl | h
            · exact hx
            · exact hxs e h
          · rcases List.mem_cons.mp he with rfl | h
            · exact hx
            · rcases List.mem_cons.mp h with rfl | h'
              · exact hbuf
              · exact hxs e h'
        · rw [if_neg h2] at he
          rcases List.mem_cons.mp he with rfl | h
          · exact hx
          · exact ih hxs e h

theorem lossBufferMergeOrInsert_sorted (prev buf : WriteStreamBuffer)
    (rest : List WriteStreamBuffer)
    (h1 : ∀ e ∈ rest, prev.offset ≤ e.offset) (h2 : prev.offset ≤ buf.offset)
    (h3 : ∀ e ∈ rest, buf.offset ≤ e.offset)
    (h4 : List.Pairwise (fun a b => a.offset ≤ b.offset) rest) :
    List.Pairwise (fun a b => a.offset ≤ b.offset) (lossBufferMergeOrInsert prev buf rest) := by
  rw [lossBufferMergeOrInsert]
  split
  · exact List.Pairwise.cons (fun e he => h1 e he) h4
  · refine List.Pairwise.cons ?_ (List.Pairwise.cons h3 h4)
    intro e he
    rcases List.mem_cons.mp he with rfl | h
    · exact h2
    · exact h1 e h

theorem insertIntoLossBuffer_sorted (l : List WriteStreamBuffer) (buf : WriteStreamBuffer)
    (hl : lossBufferSortedByOffset l) :
    lossBufferSortedByOffset (insertIntoLossBuffer l buf) := by
  induction l with
  | nil => exact List.pairwise_singleton _ _
  | cons x xs ih =>
    rw [lossBufferSortedByOffset, List.pairwise_cons] at hl
    obtain ⟨hx, hxs⟩ := hl
    rw [lossBufferSortedByOffset]
    cases xs with
    | nil =>
      rw [insertIntoLossBuffer]
      by_cases h1 : buf.offset < x.offset
      · rw [if_pos h1]
        refine List.Pairwise.cons ?_ (List.Pairwise.cons hx List.Pairwise.nil)
        intro e he
        rcases List.mem_cons.mp he with rfl | h
        · omega
        · simp at h
      · rw [if_neg h1]
        refine lossBufferMergeOrInsert_sorted x buf [] ?_ (by omega) ?_ List.Pairwise.nil <;>
          intro e he <;> simp at he
    | cons y ys =>
      rw [insertIntoLossBuffer]
      by_cases h1 : buf.offset < x.offset
      · rw [if_pos h1]
        refine List.Pairwise.cons ?_ (List.Pairwise.cons hx hxs)
        intro e he
        rcases List.mem_cons.mp he with rfl | h
        · omega
        · have := hx e h
          omega
      · rw [if_neg h1]
        by_cases h2 : buf.offset < y.offset
        · rw [if_pos h2]
          refine lossBufferMergeOrInsert_sorted x buf (y :: ys) hx (by omega) ?_ hxs
          intro e he
          rw [List.pairwise_cons] at hxs
          rcases List.mem_cons.mp he with rfl | h
          · omega
          · have := hxs.1 e h
            omega
        · rw [if_neg h2]
          refine List.Pairwise.cons ?_ (ih hxs)
          intro e he
          exact insertIntoLossBuffer_offset_forall (fun o => x.offset ≤ o) (y :: ys) buf
            hx (by omega) e he

theorem insertIntoLossBuffer_foldl_sorted (bufs : List WriteStreamBuffer) :
    ∀ l, lossBufferSortedByOffset l →
      lossBufferSortedByOffset (bufs.foldl insertIntoLossBuffer l) := by
  induction bufs with
  | nil => exact fun l hl => hl
  | cons b bs ih =>
    intro l hl
    rw [List.foldl_cons]
    exact ih _ (insertIntoLossBuffer_sorted l b hl)

theorem insertIntoLossBuffer_append_merge (front : List WriteStreamBuffer)
    (prev buf : WriteStreamBuffer)
    (hfront : ∀ e ∈ front, ¬buf.offset < e.offset)
    (hprev : ¬buf.offset < prev.offset)
    (heq : prev.offset + prev.data = buf.offset) :
    insertIntoLossBuffer (front ++ [prev]) buf =
      front ++ [{ prev with data := prev.data + buf.data, eof := buf.eof }] := by
  induction front with
  | nil =>
    rw [List.nil_append, List.nil_append, insertIntoLossBuffer, if_neg hprev,
      lossBufferMergeOrInsert, if_pos heq]
  | cons x front' ih =>
    have hx : ¬buf.offset < x.offset := hfront x (List.mem_cons_self x front')
    have hfront' : ∀ e ∈ front', ¬buf.offset < e.offset := fun e he =>
      hfront e (List.mem_cons_of_mem x he)
    have ih' := ih hfront'
    cases front' with
    | nil =>
      simp only [List.nil_append] at ih'
      simp only [List.cons_append, List.nil_append]
      rw [insertIntoLossBuffer, if_neg hx, if_neg hprev, ih']
    | cons z zs =>
      have hz : ¬buf.offset < z.offset := hfront' z (List.mem_cons_self z zs)
      simp only [List.cons_append] at ih' ⊢
      rw [insertIntoLossBuffer, if_neg hx, if_neg hz, ih']

theorem insertIntoLossBufMeta_offset_forall (P : Nat → Prop) (l : List WriteBufferMeta)
    (bufMeta : WriteBufferMeta) (hl : ∀ e ∈ l, P e.offset) (hbuf : P bufMeta.offset) :
    ∀ e ∈ insertIntoLossBufMeta l bufMeta, P e.offset := by
  induction l with
  | nil =>
    intro e he
    rw [insertIntoLossBufMeta, List.mem_singleton] at he
    exact he ▸ hbuf
  | cons x xs ih =>
    have hx := hl x (List.mem_cons_self x xs)
    have hxs : ∀ e ∈ xs, P e.offset := fun e he => hl e (List.mem_cons_of_mem x he)
    intro e he
    cases xs with
    | nil =>
      rw [insertIntoLossBufMeta] at he
      by_cases h1 : bufMeta.offset < x.offset
      · rw [if_pos h1] at he
        rcases List.mem_cons.mp he with rfl | h
        · exact hbuf
        · rcases List.mem_cons.mp h with rfl | h'
          · exact hx
          · simp at h'
      · rw [if_neg h1, lossBufMetaMergeOrInsert] at he
        split at he
        · rcases List.mem_cons.mp he with rfl | h
          · exact hx
          · simp at h
        · rcases List.mem_cons.mp he with rfl | h
          · exact hx
          · rcases List.mem_cons.mp h with rfl | h'
            · exact hbuf
            · simp at h'
    | cons y ys =>
      rw [insertIntoLossBufMeta] at he
      by_cases h1 : bufMeta.offset < x.offset
      · rw [if_pos h1] at he
        rcases List.mem_cons.mp he with rfl | h
        · exact hbuf
        · exact hl e h
      · rw [if_neg h1] at he
        by_cases h2 : bufMeta.offset < y.offset
        · rw [if_pos h2, lossBufMetaMergeOrInsert] at he
          split at he
          · rcases List.mem_cons.mp he with rfl | h
            · exact hx
            · exact hxs e h
          · rcases List.mem_cons.mp he with rfl | h
            · exact hx
            · rcases List.mem_cons.mp h with rfl | h'
              · exact hbuf
              · exact hxs e h'
        · rw [if_neg h2] at he
          rcases List.mem_cons.mp he with rfl | h
          · exact hx
          · exact ih hxs e h

theorem lossBufMetaMergeOrInsert_sorted (prev bufMeta : WriteBufferMeta)
    (rest : List WriteBufferMeta)
    (h1 : ∀ e ∈ rest, prev.offset ≤ e.offset) (h2 : prev.offset ≤ bufMeta.offset)
    (h3 : ∀ e ∈ rest, bufMeta.offset ≤ e.offset)
    (h4 : List.Pairwise (fun a b => a.offset ≤ b.offset) rest) :
    List.Pairwise (fun a b => a.offset ≤ b.offset)
      (lossBufMetaMergeOrInsert prev bufMeta rest) := by
  rw [lossBufMetaMergeOrInsert]
  split
  · exact List.Pairwise.cons (fun e he => h1 e he) h4
  · refine List.Pairwise.cons ?_ (List.Pairwise.cons h3 h4)
    intro e he
    rcases List.mem_cons.mp he with rfl | h
    · exact h2
    · exact h1 e h

theorem insertIntoLossBufMeta_sorted (l : List WriteBufferMeta) (bufMeta : WriteBufferMeta)
    (hl : lossBufMetasSortedByOffset l) :
    lossBufMetasSortedByOffset (insertIntoLossBufMeta l bufMeta) := by
  induction l with
  | nil => exact List.pairwise_singleton _ _
  | cons x xs ih =>
    rw [lossBufMetasSortedByOffset, List.pairwise_cons] at hl
    obtain ⟨hx, hxs⟩ := hl
    rw [lossBufMetasSortedByOffset]
    cases xs with
    | nil =>
      rw [insertIntoLossBufMeta]
      by_cases h1 : bufMeta.offset < x.offset
      · rw [if_pos h1]
        refine List.Pairwise.cons ?_ (List.Pairwise.cons hx List.Pairwise.nil)
        intro e he
        rcases List.mem_cons.mp he with rfl | h
        · omega
        · simp at h
      · rw [if_neg h1]
        refine lossBufMetaMergeOrInsert_sorted x bufMeta [] ?_ (by omega) ?_
          List.Pairwise.nil <;> intro e he <;> simp at he
    | cons y ys =>
      rw [insertIntoLossBufMeta]
      by_cases h1 : bufMeta.offset < x.offset
      · rw [if_pos h1]
        refine List.Pairwise.cons ?_ (List.Pairwise.cons hx hxs)
        intro e he
        rcases List.mem_cons.mp he with rfl | h
        · omega
        · have := hx e h
          omega
      · rw [if_neg h1]
        by_cases h2 : bufMeta.offset < y.offset
        · rw [if_pos h2]
          refine lossBufMetaMergeOrInsert_sorted x bufMeta (y :: ys) hx (by omega) ?_ hxs
          intro e he
          rw [List.pairwise_cons] at hxs
          rcases List.mem_cons.mp he with rfl | h
          · omega
          · have := hxs.1 e h
            omega
        · rw [if_neg h2]
          refine List.Pairwise.cons ?_ (ih hxs)
          intro e he
          exact insertIntoLossBufMeta_offset_forall (fun o => x.offset ≤ o) (y :: ys) bufMeta
            hx (by omega) e he

theorem insertIntoLossBufMeta_foldl_sorted (metas : List WriteBufferMeta) :
    ∀ l, lossBufMetasSortedByOffset l →
      lossBufMetasSortedByOffset (metas.foldl insertIntoLossBufMeta l) := by
  induction metas with
  | nil => exact fun l hl => hl
  | cons b bs ih =>
    intro l hl
    rw [List.foldl_cons]
    exact ih _ (insertIntoLossBufMeta_sorted l b hl)

theorem insertIntoLossBufMeta_append_merge (front : List WriteBufferMeta)
    (prev bufMeta : WriteBufferMeta)
    (hfront : ∀ e ∈ front, ¬bufMeta.offset < e.offset)
    (hprev : ¬bufMeta.offset < prev.offset)
    (heq : prev.offset + prev.length = bufMeta.offset) :
    insertIntoLossBufMeta (front ++ [prev]) bufMeta =
      front ++ [{ prev with length := prev.length + bufMeta.length, eof := bufMeta.eof }] := by
  induction front with
  | nil =>
    rw [List.nil_append, List.nil_append, insertIntoLossBufMeta, if_neg hprev,
      lossBufMetaMergeOrInsert, if_pos heq]
  | cons x front' ih =>
    have hx : ¬bufMeta.offset < x.offset := hfront x (List.mem_cons_self x front')
    have hfront' : ∀ e ∈ front', ¬bufMeta.offset < e.offset := fun e he =>
      hfront e (List.mem_cons_of_mem x he)
    have ih' := ih hfront'
    cases front' with
    | nil =>
      simp only [List.nil_append] at ih'
      simp only [List.cons_append, List.nil_append]
      rw [insertIntoLossBufMeta, if_neg hx, if_neg hprev, ih']
    | cons z zs =>
      have hz : ¬bufMeta.offset < z.offset := hfront' z (List.mem_cons_self z zs)
      simp only [List.cons_append] at ih' ⊢
      rw [insertIntoLossBufMeta, if_neg hx, if_neg hz, ih']

/-- C5 (amended): After any sequence of insertions starting from an empty
buffer, `lossBuffer` (resp. `lossBufMetas`) is sorted by offset; an inserted
segment is merged with an existing entry exactly when that entry immediately
precedes the insertion point and ends at the segment's offset — in particular
a segment extending the buffer's last entry is appended to it in place.  (A
segment inserted in front of an entry it abuts is *not* merged, so two
contiguous entries can remain: see the counterexample.) -/
theorem lossBuffer_insert_sorted_merge :
    (∀ bufs : List WriteStreamBuffer,
      lossBufferSortedByOffset (bufs.foldl insertIntoLossBuffer [])) ∧
    (∀ metas : List WriteBufferMeta,
      lossBufMetasSortedByOffset (metas.foldl insertIntoLossBufMeta [])) ∧
    (∀ (front : List WriteStreamBuffer) (prev buf : WriteStreamBuffer),
      (∀ e ∈ front, ¬buf.offset < e.offset) →
      ¬buf.offset < prev.offset →
      prev.offset + prev.data = buf.offset →
      insertIntoLossBuffer (front ++ [prev]) buf =
        front ++ [{ prev with data := prev.data + buf.data, eof := buf.eof }]) ∧
    (∀ (front : List WriteBufferMeta) (prev bufMeta : WriteBufferMeta),
      (∀ e ∈ front, ¬bufMeta.offset < e.offset) →
      ¬bufMeta.offset < prev.offset →
      prev.offset + prev.length = bufMeta.offset →
      insertIntoLossBufMeta (front ++ [prev]) bufMeta =
        front ++ [{ prev with length := prev.length + bufMeta.length, eof := bufMeta.eof }]) :=
  ⟨fun bufs => insertIntoLossBuffer_foldl_sorted bufs [] List.Pairwise.nil,
   fun metas => insertIntoLossBufMeta_foldl_sorted metas [] List.Pairwise.nil,
   insertIntoLossBuffer_append_merge,
   insertIntoLossBufMeta_append_merge⟩

/-- Witness for the amended C5 at concrete inputs: the counterexample's two
inserts still leave a sorted buffer, and a segment `[15, 22)` extending the
last entry `[10, 15)` is merged into it. -/
theorem lossBuffer_insert_sorted_merge_witness :
    lossBufferSortedByOffset
      ([⟨5, 10, false⟩, ⟨10, 0, false⟩].foldl insertIntoLossBuffer []) ∧
    insertIntoLossBuffer ([⟨10, 0, false⟩] ++ [⟨5, 10, false⟩]) ⟨7, 15, true⟩ =
      [⟨10, 0, false⟩] ++ [⟨12, 10, true⟩] ∧
    insertIntoLossBufMeta ([⟨10, 0, false⟩] ++ [⟨5, 10, false⟩]) ⟨7, 15, true⟩ =
      [⟨10, 0, false⟩] ++ [⟨12, 10, true⟩] := by
  refine ⟨lossBuffer_insert_sorted_merge.1 [⟨5, 10, false⟩, ⟨10, 0, false⟩], ?_, ?_⟩
  · exact lossBuffer_insert_sorted_merge.2.2.1 [⟨10, 0, false⟩] ⟨5, 10, false⟩ ⟨7, 15, true⟩
      (by decide) (by decide) rfl
  · exact lossBuffer_insert_sorted_merge.2.2.2 [⟨10, 0, false⟩] ⟨5, 10, false⟩ ⟨7, 15, true⟩
      (by decide) (by decide) rfl

/-! ## Writing stream data (`handleStreamWritten`,
`src/quic/api/QuicTransportFunctions.cpp:531-590`, with
`handleNewStreamDataWritten`, lines 425-446, and
`handleRetransmissionWritten`, lines 470-499) -/

/-- `QuicStreamLike` (`src/quic/state/StreamData.h:119-343`), restricted to
the send-side fields `handleStreamWritten` reads or writes.  `pendingWrites`
models the pending-writes chain by its length; `retransmissionBuffer` models
the offset-keyed `F14FastMap` as an association list (`emplace` prepends; the
map is unordered). -/
structure QuicStreamLike where
  currentWriteOffset : Nat
  pendingWrites : Nat
  retransmissionBuffer : List (Nat × WriteStreamBuffer)
  lossBuffer : List WriteStreamBuffer
  numPacketsTxWithNewData : Nat
deriving DecidableEq, Repr

/-- `handleNewStreamDataWritten` (`QuicTransportFunctions.cpp:425-446`): the
write offset advances by the frame length plus one extra for FIN,
`pendingWrites` loses the split-off `frameLen` bytes (`splitAtMost`), and a
segment keyed by the original offset enters `retransmissionBuffer`. -/
def handleNewStreamDataWritten (stream : QuicStreamLike) (frameLen : Nat) (frameFin : Bool) :
    QuicStreamLike :=
  let originalOffset := stream.currentWriteOffset
  let bufWritten := min frameLen stream.pendingWrites
  { stream with
    currentWriteOffset :=
      stream.currentWriteOffset + frameLen + (if frameFin then 1 else 0)
    pendingWrites := stream.pendingWrites - bufWritten
    retransmissionBuffer :=
      (originalOffset, ⟨bufWritten, originalOffset, frameFin⟩) ::
        stream.retransmissionBuffer }

/-- The loss-buffer effect of `handleRetransmissionWritten`
(`QuicTransportFunctions.cpp:470-499`) on the entry found at `frameOffset`: a
fully retransmitted entry (matching length and eof) is erased, otherwise the
entry loses its first `frameLen` bytes (`splitAtMost`) and its offset
advances. -/
def retransmitLossEntry : List WriteStreamBuffer → Nat → Nat → Bool → List WriteStreamBuffer
  | [], _, _, _ => []
  | e :: rest, frameOffset, frameLen, frameFin =>
    if e.offset = frameOffset then
      if frameLen = e.data ∧ frameFin = e.eof then
        rest
      else
        { e with offset := e.offset + frameLen, data := e.data - min frameLen e.data } :: rest
    else
      e :: retransmitLossEntry rest frameOffset frameLen frameFin

/-- `handleStreamWritten` (`QuicTransportFunctions.cpp:531-590`): new data at
exactly `currentWriteOffset` is recorded and returns true; an offset beyond
`currentWriteOffset` throws `INTERNAL_ERROR` before touching any state; a
smaller offset is a retransmission when the (sorted) loss buffer holds an
entry at exactly that offset (`std::lower_bound` plus the exact-offset check),
and a clone write otherwise — both return false. -/
def handleStreamWritten (conn : QuicConnectionStateBase) (stream : QuicStreamLike)
    (frameOffset frameLen : Nat) (frameFin : Bool) :
    QuicConnectionStateBase × QuicStreamLike × Except TransportErrorCode Bool :=
  if frameOffset = stream.currentWriteOffset then
    let stream := handleNewStreamDataWritten stream frameLen frameFin
    let stream :=
      { stream with numPacketsTxWithNewData := stream.numPacketsTxWithNewData + 1 }
    (conn, stream, .ok true)
  else if stream.currentWriteOffset < frameOffset then
    (conn, stream, .error .INTERNAL_ERROR)
  else
    match stream.lossBuffer.find? fun b => b.offset = frameOffset with
    | some entry =>
      let bufWritten := min frameLen entry.data
      let stream :=
        { stream with
          lossBuffer := retransmitLossEntry stream.lossBuffer frameOffset frameLen frameFin
          retransmissionBuffer :=
            (frameOffset, ⟨bufWritten, frameOffset, frameFin⟩) ::
              stream.retransmissionBuffer }
      ({ conn with
          lossState :=
            { conn.lossState with
              totalBytesRetransmitted :=
                conn.lossState.totalBytesRetransmitted + frameLen } },
        stream, .ok false)
    | none =>
      ({ conn with
          lossState :=
            { conn.lossState with
              totalStreamBytesCloned :=
                conn.lossState.totalStreamBytesCloned + frameLen } },
        stream, .ok false)

/-- C9: For every call to `handleStreamWritten`: an offset strictly greater
than the stream's `currentWriteOffset` yields `INTERNAL_ERROR` with the stream
(and connection) unchanged; an offset equal to `currentWriteOffset` is new
data — `currentWriteOffset` advances by the frame length plus one extra for
FIN, a segment keyed by the original offset enters `retransmissionBuffer`, and
the call returns true; any smaller offset is treated as a retransmission from
the loss buffer or as a clone and returns false. -/
theorem handleStreamWritten_spec (conn : QuicConnectionStateBase) (stream : QuicStreamLike)
    (frameOffset frameLen : Nat) (frameFin : Bool) :
    (stream.currentWriteOffset < frameOffset →
      handleStreamWritten conn stream frameOffset frameLen frameFin =
        (conn, stream, .error .INTERNAL_ERROR)) ∧
    (frameOffset = stream.currentWriteOffset →
      handleStreamWritten conn stream frameOffset frameLen frameFin =
        (conn,
          { currentWriteOffset := frameOffset + frameLen + (if frameFin then 1 else 0)
            pendingWrites := stream.pendingWrites - min frameLen stream.pendingWrites
            retransmissionBuffer :=
              (frameOffset, ⟨min frameLen stream.pendingWrites, frameOffset, frameFin⟩) ::
                stream.retransmissionBuffer
            lossBuffer := stream.lossBuffer
            numPacketsTxWithNewData := stream.numPacketsTxWithNewData + 1 },
          .ok true)) ∧
    (frameOffset < stream.currentWriteOffset →
      (handleStreamWritten conn stream frameOffset frameLen frameFin).2.2 = .ok false ∧
      ((stream.lossBuffer.find? fun b => b.offset = frameOffset).isSome = true →
        (handleStreamWritten conn stream frameOffset frameLen
              frameFin).1.lossState.totalBytesRetransmitted =
          conn.lossState.totalBytesRetransmitted + frameLen) ∧
      ((stream.lossBuffer.find? fun b => b.offset = frameOffset).isSome = false →
        (handleStreamWritten conn stream frameOffset frameLen
              frameFin).1.lossState.totalStreamBytesCloned =
          conn.lossState.totalStreamBytesCloned + frameLen)) := by
  refine ⟨fun hgt => ?_, fun heq => ?_, fun hlt => ?_⟩
  · rw [handleStreamWritten, if_neg (by omega), if_pos hgt]
  · rw [handleStreamWritten, if_pos heq]
    subst heq
    rfl
  · rw [handleStreamWritten, if_neg (by omega), if_neg (by omega)]
    cases hfind : stream.lossBuffer.find? fun b => b.offset = frameOffset with
    | none => exact ⟨rfl, fun h => by simp [hfind] at h, fun _ => rfl⟩
    | some entry => exact ⟨rfl, fun _ => rfl, fun h => by simp [hfind] at h⟩

/-- Witness for C9 at concrete inputs: a stream at write offset 10 rejects a
frame at offset 11, accepts new data at offset 10 (5 bytes with FIN, 3 bytes
pending), and returns false for a retransmission at offset 0. -/
theorem handleStreamWritten_spec_witness :
    handleStreamWritten sampleConn ⟨10, 3, [], [⟨10, 0, false⟩], 0⟩ 11 5 false =
      (sampleConn, ⟨10, 3, [], [⟨10, 0, false⟩], 0⟩, .error .INTERNAL_ERROR) ∧
    handleStreamWritten sampleConn ⟨10, 3, [], [⟨10, 0, false⟩], 0⟩ 10 5 true =
      (sampleConn, ⟨16, 0, [(10, ⟨3, 10, true⟩)], [⟨10, 0, false⟩], 1⟩, .ok true) ∧
    (handleStreamWritten sampleConn ⟨10, 3, [], [⟨10, 0, false⟩], 0⟩ 0 5 false).2.2 =
      .ok false := by
  refine ⟨(handleStreamWritten_spec sampleConn ⟨10, 3, [], [⟨10, 0, false⟩], 0⟩ 11 5
      false).1 (by decide), ?_, (handleStreamWritten_spec sampleConn
      ⟨10, 3, [], [⟨10, 0, false⟩], 0⟩ 0 5 false).2.2 (by decide) |>.1⟩
  have h := (handleStreamWritten_spec sampleConn ⟨10, 3, [], [⟨10, 0, false⟩], 0⟩ 10 5
    true).2.1 rfl
  simpa using h

/-! ## Removing acked data from the loss buffer
(`QuicStreamLike::removeFromLossBuffer`, `src/quic/state/StreamData.h:235-279`)
-/

/-- The entry loop of `removeFromLossBuffer` (`StreamData.h:240-278`),
carrying the already scanned entries reversed in `acc`.  For each entry: an
entry starting beyond the removed range ends the scan; an entry in the
containment relation with the removed range is split (`splitAtMost` of the
uncovered head when the removal starts strictly inside), trimmed
(`trimStartAtMost(len)`), erased when its data is exhausted *and* its eof flag
matches the argument, and a non-empty split-off head is re-inserted with eof
false; any other entry is skipped. -/
def removeFromLossBufferGo (offset len : Nat) (eof : Bool) :
    List WriteStreamBuffer → List WriteStreamBuffer → List WriteStreamBuffer
  | acc, [] => acc.reverse
  | acc, e :: rest =>
    let lossStartOffset := e.offset
    let lossEndOffset := e.offset + e.data
    let removedStartOffset := offset
    let removedEndOffset := offset + len
    if removedEndOffset < lossStartOffset then
      acc.reverse ++ (e :: rest)
    else if (lossStartOffset ≤ removedStartOffset ∧ removedEndOffset ≤ lossEndOffset) ∨
        (removedStartOffset ≤ lossStartOffset ∧ lossEndOffset ≤ removedEndOffset) then
      let amountToSplit :=
        if lossStartOffset < removedStartOffset then
          removedStartOffset - lossStartOffset
        else 0
      let splitBufLen := min amountToSplit e.data
      let e1 : WriteStreamBuffer :=
        { e with data := e.data - splitBufLen, offset := e.offset + amountToSplit }
      let trimmed := min len e1.data
      let e2 : WriteStreamBuffer :=
        { e1 with data := e1.data - trimmed, offset := e1.offset + trimmed }
      let buffer := acc.reverse ++ (if e2.data = 0 ∧ e2.eof = eof then rest else e2 :: rest)
      if 0 < splitBufLen then
        insertIntoLossBuffer buffer ⟨splitBufLen, lossStartOffset, false⟩
      else
        buffer
    else
      removeFromLossBufferGo offset len eof (e :: acc) rest

/-- `QuicStreamLike::removeFromLossBuffer` (`StreamData.h:235-279`): nothing
happens on an empty buffer or a zero-length removal; otherwise the entries are
scanned in order. -/
def removeFromLossBuffer (lossBuffer : List WriteStreamBuffer) (offset len : Nat)
    (eof : Bool) : List WriteStreamBuffer :=
  if lossBuffer.isEmpty ∨ len = 0 then
    lossBuffer
  else
    removeFromLossBufferGo offset len eof [] lossBuffer

theorem insertIntoLossBuffer_cons_of_lt (x : WriteStreamBuffer)
    (xs : List WriteStreamBuffer) (buf : WriteStreamBuffer)
    (h : buf.offset < x.offset) :
    insertIntoLossBuffer (x :: xs) buf = buf :: x :: xs := by
  cases xs <;> rw [insertIntoLossBuffer, if_pos h]

/-- C10: A removal whose range covers all of the first entry's data erases the
entry only when the entry's eof flag equals the `eof` argument; with differing
flags an entry with empty data remains.  A removal starting strictly inside
the first entry splits off the uncovered head and re-inserts it with eof false
regardless of the entry's original flag (the covered part is trimmed away,
leaving an empty-data entry behind when the flags differ). -/
theorem removeFromLossBuffer_spec (e : WriteStreamBuffer) (rest : List WriteStreamBuffer)
    (offset len : Nat) (eof : Bool) :
    (0 < len → offset ≤ e.offset → e.offset + e.data ≤ offset + len →
      removeFromLossBuffer (e :: rest) offset len eof =
        if e.eof = eof then rest else ⟨0, e.offset + e.data, e.eof⟩ :: rest) ∧
    (0 < len → e.offset < offset → offset + len ≤ e.offset + e.data →
      (∀ r ∈ rest, e.offset < r.offset) →
      removeFromLossBuffer (e :: rest) offset len eof =
        ⟨offset - e.offset, e.offset, false⟩ ::
          (if e.offset + e.data = offset + len ∧ e.eof = eof then rest
           else ⟨e.data - (offset - e.offset) - len, offset + len, e.eof⟩ :: rest)) := by
  constructor
  · intro hlen hle hcover
    rw [removeFromLossBuffer, if_neg (by simp; omega), removeFromLossBufferGo]
    rw [if_neg (by omega), if_pos (by omega)]
    simp only [List.reverse_nil, List.nil_append]
    rw [if_neg (show ¬e.offset < offset by omega)]
    simp only [Nat.min_zero, Nat.zero_min, Nat.sub_zero, Nat.add_zero, Nat.lt_irrefl,
      if_false]
    have htrim : len ⊓ e.data = e.data := by omega
    rw [htrim]
    have hzero : e.data - e.data = 0 := by omega
    rw [hzero]
    simp only [eq_self_iff_true, true_and]
  · intro hlen hin hcover hrest
    rw [removeFromLossBuffer, if_neg (by simp; omega), removeFromLossBufferGo]
    rw [if_neg (by omega), if_pos (by omega)]
    simp only [List.reverse_nil, List.nil_append]
    rw [if_pos hin]
    have hsplitLen : (offset - e.offset) ⊓ e.data = offset - e.offset := by omega
    rw [hsplitLen]
    have htrim : len ⊓ (e.data - (offset - e.offset)) = len := by omega
    rw [htrim]
    rw [if_pos (show 0 < offset - e.offset by omega)]
    have hoff : e.offset + (offset - e.offset) + len = offset + len := by omega
    have hdataZero : (e.data - (offset - e.offset) - len = 0) ↔
        (e.offset + e.data = offset + len) := by omega
    rw [hoff]
    by_cases hz : e.data - (offset - e.offset) - len = 0 ∧ e.eof = eof
    · rw [if_pos hz, if_pos ⟨hdataZero.mp hz.1, hz.2⟩]
      cases rest with
      | nil => rw [insertIntoLossBuffer]
      | cons r rs =>
        exact insertIntoLossBuffer_cons_of_lt r rs _ (hrest r (List.mem_cons_self r rs))
    · rw [if_neg hz, if_neg (fun hc => hz ⟨hdataZero.mpr hc.1, hc.2⟩)]
      exact insertIntoLossBuffer_cons_of_lt _ rest _ (show e.offset < offset + len by omega)

/-- Witness for C10 at concrete inputs: removing `[10, 15)` from a buffer
holding exactly `[10, 15)` erases the entry only when the eof flags agree,
and removing `[12, 15)` from an entry `[10, 15)` with eof true re-inserts the
head `[10, 12)` with eof false. -/
theorem removeFromLossBuffer_spec_witness :
    removeFromLossBuffer [⟨5, 10, true⟩] 10 5 true = [] ∧
    removeFromLossBuffer [⟨5, 10, true⟩] 10 5 false = [⟨0, 15, true⟩] ∧
    removeFromLossBuffer [⟨5, 10, true⟩] 12 3 true = [⟨2, 10, false⟩] ∧
    removeFromLossBuffer [⟨5, 10, true⟩] 12 3 false =
      [⟨2, 10, false⟩, ⟨0, 15, true⟩] := by
  refine ⟨?_, ?_, ?_, ?_⟩
  · have h := (removeFromLossBuffer_spec ⟨5, 10, true⟩ [] 10 5 true).1
      (by decide) (by decide) (by decide)
    simpa using h
  · have h := (removeFromLossBuffer_spec ⟨5, 10, true⟩ [] 10 5 false).1
      (by decide) (by decide) (by decide)
    simpa using h
  · have h := (removeFromLossBuffer_spec ⟨5, 10, true⟩ [] 12 3 true).2
      (by decide) (by decide) (by decide) (by simp)
    simpa using h
  · have h := (removeFromLossBuffer_spec ⟨5, 10, true⟩ [] 12 3 false).2
      (by decide) (by decide) (by decide) (by simp)
    simpa using h

end Quic
